import Mathlib

/-!
# Verification of the `db-assistant` component (YY-Nexus/yyc3-jczx)

Shallow embedding of the client-side logic of
`src/app/components/ai-assistant/db-assistant.tsx`:

* the usage-statistics grouping reduction of `UsageStatistics`
  (`usageStats.reduce` keyed by date, nested mapping keyed by
  `provider-model_name`, then sorted date-descending);
* the fetch/load state transitions of the `DbAssistant` component
  (`loadConversations`, `loadMessages`, `loadModels`, `loadPreferences`,
  `loadUsageStats`), modelled as pure functions of the component state and
  of the outcome of the network call;
* the blank-title guards of `ConversationListItem.handleRename` and
  `NewConversationDialog.handleCreate`.

JavaScript objects with string keys preserve insertion order, so the
`reduce` accumulator is embedded as an association list to which new keys
are appended at the end and in which existing keys are updated in place.
JavaScript numbers carried by the usage rows are embedded as `Int`; the
`new Date(s).getTime()` sort key is an external function of the date
string and is taken as a parameter `dateTime : String → Int`.
-/

namespace DbAssistant

/-- A usage row as delivered by `GET /api/ai-assistant/usage`
(the `UsageStat` type of the source). -/
structure UsageStat where
  date : String
  tokens_used : Int
  request_count : Int
  model_name : String
  provider : String
deriving DecidableEq

/-- One per-model entry of a date bucket: the object
`\x7bname, provider, tokens, requests\x7d` built by the reduce step. -/
structure ModelEntry where
  name : String
  provider : String
  tokens : Int
  requests : Int
deriving DecidableEq

/-- One date bucket: the object
`\x7bdate, totalTokens, totalRequests, models\x7d` built by the reduce step.
`models` is the nested mapping keyed by `provider-model_name`, kept as an
association list in key-insertion order. -/
structure DateBucket where
  date : String
  totalTokens : Int
  totalRequests : Int
  models : List (String × ModelEntry)
deriving DecidableEq

/-- The nested key `` `${stat.provider}-${stat.model_name}` ``. -/
def modelKey (s : UsageStat) : String :=
  s.provider ++ "-" ++ s.model_name

/-- The zero-initialised model entry created when `modelKey` is absent. -/
def emptyEntry (s : UsageStat) : ModelEntry :=
  { name := s.model_name, provider := s.provider, tokens := 0, requests := 0 }

/-- The zero-initialised date bucket created when the date is absent. -/
def emptyBucket (d : String) : DateBucket :=
  { date := d, totalTokens := 0, totalRequests := 0, models := [] }

/-- Accumulation step `entry.tokens += stat.tokens_used; entry.requests += stat.request_count`. -/
def addStatToEntry (e : ModelEntry) (s : UsageStat) : ModelEntry :=
  { e with tokens := e.tokens + s.tokens_used,
           requests := e.requests + s.request_count }

/-- Update of the nested `models` mapping by one row: the first entry whose
key equals `modelKey s` is updated in place; if none exists, a
zero-initialised entry is appended and then updated. -/
def updateModels : List (String × ModelEntry) → UsageStat → List (String × ModelEntry)
  | [], s => [(modelKey s, addStatToEntry (emptyEntry s) s)]
  | p :: ps, s =>
      if p.1 = modelKey s then (p.1, addStatToEntry p.2 s) :: ps
      else p :: updateModels ps s

/-- Accumulation of one row into its date bucket: both date-level totals
and the nested model entry receive the row's counts. -/
def addStatToBucket (b : DateBucket) (s : UsageStat) : DateBucket :=
  { b with totalTokens := b.totalTokens + s.tokens_used,
           totalRequests := b.totalRequests + s.request_count,
           models := updateModels b.models s }

/-- Update of the date-keyed accumulator by one row: the first bucket whose
date equals the row's date is updated in place; if none exists, a
zero-initialised bucket is appended and then updated. -/
def updateBuckets : List DateBucket → UsageStat → List DateBucket
  | [], s => [addStatToBucket (emptyBucket s.date) s]
  | b :: bs, s =>
      if b.date = s.date then addStatToBucket b s :: bs
      else b :: updateBuckets bs s

/-- The `usageStats.reduce` of `UsageStatistics`: `groupedByDate`. -/
def groupedByDate (stats : List UsageStat) : List DateBucket :=
  stats.foldl updateBuckets []

/-- The sort order of `sortedStats`: the comparator
`(a, b) => new Date(b.date).getTime() - new Date(a.date).getTime()`
orders buckets by descending `getTime` of their date. -/
def byDateDesc (dateTime : String → Int) (a b : DateBucket) : Prop :=
  dateTime b.date ≤ dateTime a.date

instance (dateTime : String → Int) : DecidableRel (byDateDesc dateTime) :=
  fun _ _ => Int.decLe _ _

/-- The array `Object.values(groupedByDate).sort(...)`: the date buckets in
descending date order (a stable sort, as `Array.prototype.sort` is). -/
def sortedStats (dateTime : String → Int) (stats : List UsageStat) : List DateBucket :=
  (groupedByDate stats).insertionSort (byDateDesc dateTime)

/-- The rendering alternatives of `UsageStatistics`. -/
inductive UsageView where
  | noData
  | statsView (buckets : List DateBucket)
deriving DecidableEq

/-- The `UsageStatistics` component: the "no data" placeholder when
`sortedStats.length === 0`, the statistics view otherwise. -/
def usageStatisticsView (dateTime : String → Int) (stats : List UsageStat) : UsageView :=
  let s := sortedStats dateTime stats
  if s.length = 0 then UsageView.noData else UsageView.statsView s

/-- Grand total of tokens displayed by the statistics view:
`sortedStats.reduce((sum, stat) => sum + stat.totalTokens, 0)`. -/
def grandTotalTokens (dateTime : String → Int) (stats : List UsageStat) : Int :=
  ((sortedStats dateTime stats).map DateBucket.totalTokens).sum

/-- Grand total of requests displayed by the statistics view:
`sortedStats.reduce((sum, stat) => sum + stat.totalRequests, 0)`. -/
def grandTotalRequests (dateTime : String → Int) (stats : List UsageStat) : Int :=
  ((sortedStats dateTime stats).map DateBucket.totalRequests).sum

/-- First bucket of the accumulator carrying a given date
(how the reduce body addresses `acc[date]`). -/
def findB : List DateBucket → String → Option DateBucket
  | [], _ => none
  | b :: bs, d => if b.date = d then some b else findB bs d

/-- First entry of a `models` list carrying a given key
(how the reduce body addresses `acc[date].models[modelKey]`). -/
def findM : List (String × ModelEntry) → String → Option (String × ModelEntry)
  | [], _ => none
  | p :: ps, k => if p.1 = k then some p else findM ps k

/-! ## Pointwise behaviour of one reduce step -/

theorem date_addStatToBucket (b : DateBucket) (s : UsageStat) :
    (addStatToBucket b s).date = b.date := rfl

theorem findM_updateModels_ne (ms : List (String × ModelEntry)) (s : UsageStat)
    (k : String) (h : modelKey s ≠ k) :
    findM (updateModels ms s) k = findM ms k := by
  induction ms with
  | nil => simp [updateModels, findM, h]
  | cons p ps ih =>
      by_cases hk : p.1 = modelKey s
      · have hpk : ¬ p.1 = k := fun hc => h (hk ▸ hc)
        simp [updateModels, findM, hk, hpk, h]
      · by_cases hp : p.1 = k <;>
          simp [updateModels, findM, hk, hp, h, Ne.symm h, ih]

theorem findM_updateModels_self (ms : List (String × ModelEntry)) (s : UsageStat) :
    findM (updateModels ms s) (modelKey s) =
      some (((findM ms (modelKey s)).getD (modelKey s, emptyEntry s)).1,
            addStatToEntry (((findM ms (modelKey s)).getD (modelKey s, emptyEntry s)).2) s) := by
  induction ms with
  | nil => simp [updateModels, findM]
  | cons p ps ih =>
      by_cases hk : p.1 = modelKey s
      · simp [updateModels, findM, hk]
      · simp [updateModels, findM, hk, ih]

theorem findB_updateBuckets_ne (bs : List DateBucket) (s : UsageStat)
    (d : String) (h : s.date ≠ d) :
    findB (updateBuckets bs s) d = findB bs d := by
  induction bs with
  | nil => simp [updateBuckets, findB, addStatToBucket, emptyBucket, h]
  | cons b bs ih =>
      by_cases hb : b.date = s.date
      · have hbd : ¬ b.date = d := fun hc => h (hb ▸ hc)
        simp [updateBuckets, findB, hb, hbd, addStatToBucket, h]
      · by_cases hd : b.date = d <;>
          simp [updateBuckets, findB, hb, hd, h, Ne.symm h, ih]

theorem findB_updateBuckets_self (bs : List DateBucket) (s : UsageStat) :
    findB (updateBuckets bs s) s.date =
      some (addStatToBucket ((findB bs s.date).getD (emptyBucket s.date)) s) := by
  induction bs with
  | nil => simp [updateBuckets, findB, addStatToBucket, emptyBucket]
  | cons b bs ih =>
      by_cases hb : b.date = s.date
      · simp [updateBuckets, findB, hb, addStatToBucket]
      · simp [updateBuckets, findB, hb, ih]

/-! ## Characterisation of the full fold -/

theorem findM_foldl_some (l : List UsageStat) :
    ∀ (init : List (String × ModelEntry)) (k : String) (p : String × ModelEntry),
    findM init k = some p →
    findM (l.foldl updateModels init) k =
      some (p.1, (l.filter (fun s => modelKey s = k)).foldl addStatToEntry p.2) := by
  induction l with
  | nil => intro init k p h; simpa using h
  | cons s rest ih =>
      intro init k p h
      by_cases hm : modelKey s = k
      · have h1 : findM (updateModels init s) k =
            some (p.1, addStatToEntry p.2 s) := by
          have := findM_updateModels_self init s
          rw [hm, h] at this
          simpa using this
        have := ih (updateModels init s) k (p.1, addStatToEntry p.2 s) h1
        simpa [List.foldl_cons, hm] using this
      · have h1 : findM (updateModels init s) k = some p := by
          rw [findM_updateModels_ne init s k hm, h]
        have := ih (updateModels init s) k p h1
        simpa [hm] using this

theorem findM_foldl_none_nil (l : List UsageStat) :
    ∀ (init : List (String × ModelEntry)) (k : String),
    findM init k = none → l.filter (fun s => modelKey s = k) = [] →
    findM (l.foldl updateModels init) k = none := by
  induction l with
  | nil => intro init k h _; simpa using h
  | cons s rest ih =>
      intro init k h hf
      by_cases hm : modelKey s = k
      · simp [hm] at hf
      · simp only [List.filter_cons, decide_eq_true_eq, hm, if_false] at hf
        have h1 : findM (updateModels init s) k = none := by
          rw [findM_updateModels_ne init s k hm, h]
        simpa [hm] using ih (updateModels init s) k h1 (by simpa using hf)

theorem findM_foldl_none_cons (l : List UsageStat) :
    ∀ (init : List (String × ModelEntry)) (k : String) (s0 : UsageStat) (rest : List UsageStat),
    findM init k = none → l.filter (fun s => modelKey s = k) = s0 :: rest →
    findM (l.foldl updateModels init) k =
      some (modelKey s0, rest.foldl addStatToEntry (addStatToEntry (emptyEntry s0) s0)) := by
  induction l with
  | nil => intro init k s0 rest _ hf; simp at hf
  | cons s tl ih =>
      intro init k s0 rest h hf
      by_cases hm : modelKey s = k
      · simp only [List.filter_cons, decide_eq_true_eq, hm, if_true, List.cons.injEq] at hf
        obtain ⟨rfl, hrest⟩ := hf
        have h1 : findM (updateModels init s) k =
            some (k, addStatToEntry (emptyEntry s) s) := by
          have := findM_updateModels_self init s
          rw [hm, h] at this
          simpa using this
        have := findM_foldl_some tl (updateModels init s) k
          (k, addStatToEntry (emptyEntry s) s) h1
        simpa [hrest, hm] using this
      · simp only [List.filter_cons, decide_eq_true_eq, hm, if_false] at hf
        have h1 : findM (updateModels init s) k = none := by
          rw [findM_updateModels_ne init s k hm, h]
        simpa [hm] using ih (updateModels init s) k s0 rest h1 hf

theorem findB_foldl_some (l : List UsageStat) :
    ∀ (init : List DateBucket) (d : String) (b : DateBucket),
    findB init d = some b →
    findB (l.foldl updateBuckets init) d =
      some ((l.filter (fun s => s.date = d)).foldl addStatToBucket b) := by
  induction l with
  | nil => intro init d b h; simpa using h
  | cons s rest ih =>
      intro init d b h
      by_cases hm : s.date = d
      · have h1 : findB (updateBuckets init s) d = some (addStatToBucket b s) := by
          have := findB_updateBuckets_self init s
          rw [hm, h] at this
          simpa using this
        have := ih (updateBuckets init s) d (addStatToBucket b s) h1
        simpa [hm] using this
      · have h1 : findB (updateBuckets init s) d = some b := by
          rw [findB_updateBuckets_ne init s d hm, h]
        have := ih (updateBuckets init s) d b h1
        simpa [hm] using this

theorem findB_foldl_none_nil (l : List UsageStat) :
    ∀ (init : List DateBucket) (d : String),
    findB init d = none → l.filter (fun s => s.date = d) = [] →
    findB (l.foldl updateBuckets init) d = none := by
  induction l with
  | nil => intro init d h _; simpa using h
  | cons s rest ih =>
      intro init d h hf
      by_cases hm : s.date = d
      · simp [hm] at hf
      · simp only [List.filter_cons, decide_eq_true_eq, hm, if_false] at hf
        have h1 : findB (updateBuckets init s) d = none := by
          rw [findB_updateBuckets_ne init s d hm, h]
        simpa [hm] using ih (updateBuckets init s) d h1 (by simpa using hf)

theorem findB_foldl_none_cons (l : List UsageStat) :
    ∀ (init : List DateBucket) (d : String) (s0 : UsageStat) (rest : List UsageStat),
    findB init d = none → l.filter (fun s => s.date = d) = s0 :: rest →
    findB (l.foldl updateBuckets init) d =
      some (rest.foldl addStatToBucket (addStatToBucket (emptyBucket d) s0)) := by
  induction l with
  | nil => intro init d s0 rest _ hf; simp at hf
  | cons s tl ih =>
      intro init d s0 rest h hf
      by_cases hm : s.date = d
      · simp only [List.filter_cons, decide_eq_true_eq, hm, if_true, List.cons.injEq] at hf
        obtain ⟨rfl, hrest⟩ := hf
        have h1 : findB (updateBuckets init s) d =
            some (addStatToBucket (emptyBucket d) s) := by
          have := findB_updateBuckets_self init s
          rw [hm, h] at this
          simpa [hm] using this
        have := findB_foldl_some tl (updateBuckets init s) d
          (addStatToBucket (emptyBucket d) s) h1
        simpa [hrest] using this
      · simp only [List.filter_cons, decide_eq_true_eq, hm, if_false] at hf
        have h1 : findB (updateBuckets init s) d = none := by
          rw [findB_updateBuckets_ne init s d hm, h]
        simpa [hm] using ih (updateBuckets init s) d s0 rest h1 hf

/-! ## Content of an accumulated bucket / entry -/

theorem foldl_addStatToEntry_tokens (l : List UsageStat) :
    ∀ e : ModelEntry,
    (l.foldl addStatToEntry e).tokens = e.tokens + (l.map UsageStat.tokens_used).sum := by
  induction l with
  | nil => intro e; simp
  | cons s rest ih =>
      intro e
      simp [ih, addStatToEntry, add_assoc]

theorem foldl_addStatToEntry_requests (l : List UsageStat) :
    ∀ e : ModelEntry,
    (l.foldl addStatToEntry e).requests = e.requests + (l.map UsageStat.request_count).sum := by
  induction l with
  | nil => intro e; simp
  | cons s rest ih =>
      intro e
      simp [ih, addStatToEntry, add_assoc]

theorem foldl_addStatToBucket_date (l : List UsageStat) :
    ∀ b : DateBucket, (l.foldl addStatToBucket b).date = b.date := by
  induction l with
  | nil => intro b; rfl
  | cons s rest ih => intro b; simp [ih, addStatToBucket]

theorem foldl_addStatToBucket_totalTokens (l : List UsageStat) :
    ∀ b : DateBucket,
    (l.foldl addStatToBucket b).totalTokens
      = b.totalTokens + (l.map UsageStat.tokens_used).sum := by
  induction l with
  | nil => intro b; simp
  | cons s rest ih =>
      intro b
      simp [ih, addStatToBucket, add_assoc]

theorem foldl_addStatToBucket_totalRequests (l : List UsageStat) :
    ∀ b : DateBucket,
    (l.foldl addStatToBucket b).totalRequests
      = b.totalRequests + (l.map UsageStat.request_count).sum := by
  induction l with
  | nil => intro b; simp
  | cons s rest ih =>
      intro b
      simp [ih, addStatToBucket, add_assoc]

theorem foldl_addStatToBucket_models (l : List UsageStat) :
    ∀ b : DateBucket,
    (l.foldl addStatToBucket b).models = l.foldl updateModels b.models := by
  induction l with
  | nil => intro b; rfl
  | cons s rest ih => intro b; simp [ih, addStatToBucket]

/-! ## Keys and dates of the accumulator -/

theorem keys_updateModels (ms : List (String × ModelEntry)) (s : UsageStat) :
    (updateModels ms s).map Prod.fst =
      if modelKey s ∈ ms.map Prod.fst then ms.map Prod.fst
      else ms.map Prod.fst ++ [modelKey s] := by
  induction ms with
  | nil => simp [updateModels]
  | cons p ps ih =>
      by_cases hk : p.1 = modelKey s
      · simp [updateModels, hk]
      · by_cases hmem : modelKey s ∈ ps.map Prod.fst <;>
          simp [updateModels, hk, Ne.symm hk, hmem, ih]

theorem dates_updateBuckets (bs : List DateBucket) (s : UsageStat) :
    (updateBuckets bs s).map DateBucket.date =
      if s.date ∈ bs.map DateBucket.date then bs.map DateBucket.date
      else bs.map DateBucket.date ++ [s.date] := by
  induction bs with
  | nil => simp [updateBuckets, addStatToBucket, emptyBucket]
  | cons b bs ih =>
      by_cases hb : b.date = s.date
      · simp [updateBuckets, hb, addStatToBucket]
      · by_cases hmem : s.date ∈ bs.map DateBucket.date <;>
          simp [updateBuckets, hb, Ne.symm hb, hmem, ih, addStatToBucket]

theorem nodup_keys_updateModels (ms : List (String × ModelEntry)) (s : UsageStat)
    (h : (ms.map Prod.fst).Nodup) : ((updateModels ms s).map Prod.fst).Nodup := by
  rw [keys_updateModels]
  by_cases hmem : modelKey s ∈ ms.map Prod.fst <;>
    simp [hmem, h, List.nodup_append]

theorem nodup_dates_updateBuckets (bs : List DateBucket) (s : UsageStat)
    (h : (bs.map DateBucket.date).Nodup) :
    ((updateBuckets bs s).map DateBucket.date).Nodup := by
  rw [dates_updateBuckets]
  by_cases hmem : s.date ∈ bs.map DateBucket.date <;>
    simp [hmem, h, List.nodup_append]

theorem nodup_keys_foldl_updateModels (l : List UsageStat) :
    ∀ init : List (String × ModelEntry), (init.map Prod.fst).Nodup →
    ((l.foldl updateModels init).map Prod.fst).Nodup := by
  induction l with
  | nil => intro init h; simpa using h
  | cons s rest ih =>
      intro init h
      exact ih (updateModels init s) (nodup_keys_updateModels init s h)

theorem nodup_dates_grouped (stats : List UsageStat) :
    ((groupedByDate stats).map DateBucket.date).Nodup := by
  have aux : ∀ init : List DateBucket, (init.map DateBucket.date).Nodup →
      ((stats.foldl updateBuckets init).map DateBucket.date).Nodup := by
    induction stats with
    | nil => intro init h; simpa using h
    | cons s rest ih =>
        intro init h
        exact ih (updateBuckets init s) (nodup_dates_updateBuckets init s h)
  exact aux [] (by simp)

/-! ## `find` versus membership -/

theorem findB_eq_none_iff (bs : List DateBucket) (d : String) :
    findB bs d = none ↔ d ∉ bs.map DateBucket.date := by
  induction bs with
  | nil => simp [findB]
  | cons b bs ih =>
      by_cases hb : b.date = d
      · simp [findB, hb]
      · simp [findB, hb, ih, Ne.symm hb]

theorem findM_eq_none_iff (ms : List (String × ModelEntry)) (k : String) :
    findM ms k = none ↔ k ∉ ms.map Prod.fst := by
  induction ms with
  | nil => simp [findM]
  | cons p ps ih =>
      by_cases hp : p.1 = k
      · simp [findM, hp]
      · simp [findM, hp, ih, Ne.symm hp]

theorem findB_mem (bs : List DateBucket) (d : String) (b : DateBucket)
    (h : findB bs d = some b) : b ∈ bs ∧ b.date = d := by
  induction bs with
  | nil => simp [findB] at h
  | cons b0 bs ih =>
      by_cases hb : b0.date = d
      · simp only [findB, hb, if_true, Option.some.injEq] at h
        subst h
        exact ⟨List.mem_cons_self _ _, hb⟩
      · simp only [findB, hb, if_false] at h
        obtain ⟨hmem, hdate⟩ := ih h
        exact ⟨List.mem_cons_of_mem _ hmem, hdate⟩

theorem findM_mem (ms : List (String × ModelEntry)) (k : String) (p : String × ModelEntry)
    (h : findM ms k = some p) : p ∈ ms ∧ p.1 = k := by
  induction ms with
  | nil => simp [findM] at h
  | cons p0 ps ih =>
      by_cases hp : p0.1 = k
      · simp only [findM, hp, if_true, Option.some.injEq] at h
        subst h
        exact ⟨List.mem_cons_self _ _, hp⟩
      · simp only [findM, hp, if_false] at h
        obtain ⟨hmem, hkey⟩ := ih h
        exact ⟨List.mem_cons_of_mem _ hmem, hkey⟩

theorem findB_of_mem (bs : List DateBucket) (b : DateBucket)
    (hnd : (bs.map DateBucket.date).Nodup) (hb : b ∈ bs) :
    findB bs b.date = some b := by
  induction bs with
  | nil => simp at hb
  | cons b0 bs ih =>
      rcases List.mem_cons.1 hb with rfl | hmem
      · simp [findB]
      · have hne : b0.date ≠ b.date := by
          intro hc
          have : b.date ∈ bs.map DateBucket.date :=
            List.mem_map_of_mem DateBucket.date hmem
          rw [← hc] at this
          exact (List.nodup_cons.1 (by simpa using hnd)).1 this
        simp only [findB, hne, if_false]
        exact ih (List.nodup_cons.1 (by simpa using hnd)).2 hmem

theorem findM_of_mem (ms : List (String × ModelEntry)) (p : String × ModelEntry)
    (hnd : (ms.map Prod.fst).Nodup) (hp : p ∈ ms) :
    findM ms p.1 = some p := by
  induction ms with
  | nil => simp at hp
  | cons p0 ps ih =>
      rcases List.mem_cons.1 hp with rfl | hmem
      · simp [findM]
      · have hne : p0.1 ≠ p.1 := by
          intro hc
          have : p.1 ∈ ps.map Prod.fst := List.mem_map_of_mem Prod.fst hmem
          rw [← hc] at this
          exact (List.nodup_cons.1 (by simpa using hnd)).1 this
        simp only [findM, hne, if_false]
        exact ih (List.nodup_cons.1 (by simpa using hnd)).2 hmem

/-! ## Buckets produced by `groupedByDate` -/

theorem findB_grouped_none (stats : List UsageStat) (d : String)
    (hf : stats.filter (fun s => s.date = d) = []) :
    findB (groupedByDate stats) d = none := by
  simpa [groupedByDate] using findB_foldl_none_nil stats [] d rfl hf

theorem findB_grouped_cons (stats : List UsageStat) (d : String)
    (s0 : UsageStat) (rest : List UsageStat)
    (hf : stats.filter (fun s => s.date = d) = s0 :: rest) :
    findB (groupedByDate stats) d =
      some (rest.foldl addStatToBucket (addStatToBucket (emptyBucket d) s0)) := by
  simpa [groupedByDate] using findB_foldl_none_cons stats [] d s0 rest rfl hf

theorem mem_grouped_eq (stats : List UsageStat) (b : DateBucket)
    (hb : b ∈ groupedByDate stats) :
    b = (stats.filter fun s => s.date = b.date).foldl addStatToBucket (emptyBucket b.date) := by
  have hfind := findB_of_mem _ b (nodup_dates_grouped stats) hb
  cases hf : stats.filter (fun s => s.date = b.date) with
  | nil =>
      rw [findB_grouped_none stats b.date hf] at hfind
      exact absurd hfind (by simp)
  | cons s0 rest =>
      rw [findB_grouped_cons stats b.date s0 rest hf] at hfind
      rw [List.foldl_cons]
      exact (Option.some.inj hfind).symm

theorem grouped_bucket_props (stats : List UsageStat) (b : DateBucket)
    (hb : b ∈ groupedByDate stats) :
    b.totalTokens = ((stats.filter fun s => s.date = b.date).map UsageStat.tokens_used).sum
    ∧ b.totalRequests = ((stats.filter fun s => s.date = b.date).map UsageStat.request_count).sum
    ∧ b.models = (stats.filter fun s => s.date = b.date).foldl updateModels [] := by
  have he := mem_grouped_eq stats b hb
  refine ⟨?_, ?_, ?_⟩
  · conv_lhs => rw [he]
    simp [foldl_addStatToBucket_totalTokens, emptyBucket]
  · conv_lhs => rw [he]
    simp [foldl_addStatToBucket_totalRequests, emptyBucket]
  · conv_lhs => rw [he]
    simp [foldl_addStatToBucket_models, emptyBucket]

theorem mem_grouped_date_from_stats (stats : List UsageStat) (b : DateBucket)
    (hb : b ∈ groupedByDate stats) : ∃ s ∈ stats, s.date = b.date := by
  have hfind := findB_of_mem _ b (nodup_dates_grouped stats) hb
  cases hf : stats.filter (fun s => s.date = b.date) with
  | nil =>
      rw [findB_grouped_none stats b.date hf] at hfind
      exact absurd hfind (by simp)
  | cons s0 rest =>
      have hs0 : s0 ∈ stats.filter (fun s => s.date = b.date) := by
        rw [hf]; exact List.mem_cons_self _ _
      have := List.mem_filter.1 hs0
      exact ⟨s0, this.1, by simpa using this.2⟩

theorem mem_grouped_of_mem_stats (stats : List UsageStat) (s : UsageStat)
    (hs : s ∈ stats) : ∃ b ∈ groupedByDate stats, b.date = s.date := by
  cases hf : stats.filter (fun x => x.date = s.date) with
  | nil =>
      exfalso
      have : s ∈ stats.filter (fun x => x.date = s.date) :=
        List.mem_filter.2 ⟨hs, by simp⟩
      rw [hf] at this
      simp at this
  | cons s0 rest =>
      have h2 := findB_grouped_cons stats s.date s0 rest hf
      obtain ⟨hmem, hdate⟩ := findB_mem _ _ _ h2
      exact ⟨_, hmem, hdate⟩

/-! ## Entries of a bucket's `models` list -/

theorem models_entry_props (f : List UsageStat) (p : String × ModelEntry)
    (hp : p ∈ f.foldl updateModels []) :
    p.2.tokens = ((f.filter fun s => modelKey s = p.1).map UsageStat.tokens_used).sum
    ∧ p.2.requests = ((f.filter fun s => modelKey s = p.1).map UsageStat.request_count).sum := by
  have hnd : ((f.foldl updateModels ([] : List (String × ModelEntry))).map Prod.fst).Nodup :=
    nodup_keys_foldl_updateModels f [] (by simp)
  have hfind := findM_of_mem _ p hnd hp
  cases hf : f.filter (fun s => modelKey s = p.1) with
  | nil =>
      rw [findM_foldl_none_nil f [] p.1 rfl hf] at hfind
      exact absurd hfind (by simp)
  | cons s0 rest =>
      rw [findM_foldl_none_cons f [] p.1 s0 rest rfl hf] at hfind
      have hpe := (Option.some.inj hfind).symm
      constructor
      · have : p.2 = rest.foldl addStatToEntry (addStatToEntry (emptyEntry s0) s0) := by
          rw [hpe]
        rw [this]
        simp [foldl_addStatToEntry_tokens, addStatToEntry, emptyEntry, add_assoc]
      · have : p.2 = rest.foldl addStatToEntry (addStatToEntry (emptyEntry s0) s0) := by
          rw [hpe]
        rw [this]
        simp [foldl_addStatToEntry_requests, addStatToEntry, emptyEntry, add_assoc]

theorem modelKey_mem_fold (f : List UsageStat) (s : UsageStat) (hs : s ∈ f) :
    ∃ p ∈ f.foldl updateModels ([] : List (String × ModelEntry)), p.1 = modelKey s := by
  cases hf : f.filter (fun x => modelKey x = modelKey s) with
  | nil =>
      exfalso
      have : s ∈ f.filter (fun x => modelKey x = modelKey s) :=
        List.mem_filter.2 ⟨hs, by simp⟩
      rw [hf] at this
      simp at this
  | cons s0 rest =>
      have h2 := findM_foldl_none_cons f [] (modelKey s) s0 rest rfl hf
      obtain ⟨hmem, hkey⟩ := findM_mem _ _ _ h2
      exact ⟨_, hmem, hkey⟩

/-! ## Conservation of the accumulated counts -/

theorem sum_tokens_updateModels (ms : List (String × ModelEntry)) (s : UsageStat) :
    ((updateModels ms s).map (fun p => p.2.tokens)).sum
      = (ms.map (fun p => p.2.tokens)).sum + s.tokens_used := by
  induction ms with
  | nil => simp [updateModels, addStatToEntry, emptyEntry]
  | cons p ps ih =>
      by_cases hk : p.1 = modelKey s
      · simp only [updateModels, hk, if_true, List.map_cons, List.sum_cons, addStatToEntry]
        ring
      · simp only [updateModels, hk, if_false, List.map_cons, List.sum_cons, ih]
        ring

theorem sum_requests_updateModels (ms : List (String × ModelEntry)) (s : UsageStat) :
    ((updateModels ms s).map (fun p => p.2.requests)).sum
      = (ms.map (fun p => p.2.requests)).sum + s.request_count := by
  induction ms with
  | nil => simp [updateModels, addStatToEntry, emptyEntry]
  | cons p ps ih =>
      by_cases hk : p.1 = modelKey s
      · simp only [updateModels, hk, if_true, List.map_cons, List.sum_cons, addStatToEntry]
        ring
      · simp only [updateModels, hk, if_false, List.map_cons, List.sum_cons, ih]
        ring

theorem sum_tokens_foldl_updateModels (l : List UsageStat) :
    ∀ init : List (String × ModelEntry),
    ((l.foldl updateModels init).map (fun p => p.2.tokens)).sum
      = (init.map (fun p => p.2.tokens)).sum + (l.map UsageStat.tokens_used).sum := by
  induction l with
  | nil => intro init; simp
  | cons s rest ih =>
      intro init
      rw [List.foldl_cons, ih, sum_tokens_updateModels]
      simp [add_assoc]

theorem sum_requests_foldl_updateModels (l : List UsageStat) :
    ∀ init : List (String × ModelEntry),
    ((l.foldl updateModels init).map (fun p => p.2.requests)).sum
      = (init.map (fun p => p.2.requests)).sum + (l.map UsageStat.request_count).sum := by
  induction l with
  | nil => intro init; simp
  | cons s rest ih =>
      intro init
      rw [List.foldl_cons, ih, sum_requests_updateModels]
      simp [add_assoc]

theorem sum_totalTokens_updateBuckets (bs : List DateBucket) (s : UsageStat) :
    ((updateBuckets bs s).map DateBucket.totalTokens).sum
      = (bs.map DateBucket.totalTokens).sum + s.tokens_used := by
  induction bs with
  | nil => simp [updateBuckets, addStatToBucket, emptyBucket]
  | cons b bs ih =>
      by_cases hb : b.date = s.date
      · simp only [updateBuckets, hb, if_true, List.map_cons, List.sum_cons, addStatToBucket]
        ring
      · simp only [updateBuckets, hb, if_false, List.map_cons, List.sum_cons, ih]
        ring

theorem sum_totalRequests_updateBuckets (bs : List DateBucket) (s : UsageStat) :
    ((updateBuckets bs s).map DateBucket.totalRequests).sum
      = (bs.map DateBucket.totalRequests).sum + s.request_count := by
  induction bs with
  | nil => simp [updateBuckets, addStatToBucket, emptyBucket]
  | cons b bs ih =>
      by_cases hb : b.date = s.date
      · simp only [updateBuckets, hb, if_true, List.map_cons, List.sum_cons, addStatToBucket]
        ring
      · simp only [updateBuckets, hb, if_false, List.map_cons, List.sum_cons, ih]
        ring

theorem sum_totalTokens_grouped (stats : List UsageStat) :
    ((groupedByDate stats).map DateBucket.totalTokens).sum
      = (stats.map UsageStat.tokens_used).sum := by
  have aux : ∀ init : List DateBucket,
      ((stats.foldl updateBuckets init).map DateBucket.totalTokens).sum
        = (init.map DateBucket.totalTokens).sum + (stats.map UsageStat.tokens_used).sum := by
    induction stats with
    | nil => intro init; simp
    | cons s rest ih =>
        intro init
        rw [List.foldl_cons, ih, sum_totalTokens_updateBuckets]
        simp [add_assoc]
  simpa [groupedByDate] using aux []

theorem sum_totalRequests_grouped (stats : List UsageStat) :
    ((groupedByDate stats).map DateBucket.totalRequests).sum
      = (stats.map UsageStat.request_count).sum := by
  have aux : ∀ init : List DateBucket,
      ((stats.foldl updateBuckets init).map DateBucket.totalRequests).sum
        = (init.map DateBucket.totalRequests).sum + (stats.map UsageStat.request_count).sum := by
    induction stats with
    | nil => intro init; simp
    | cons s rest ih =>
        intro init
        rw [List.foldl_cons, ih, sum_totalRequests_updateBuckets]
        simp [add_assoc]
  simpa [groupedByDate] using aux []

theorem perm_sortedStats (dateTime : String → Int) (stats : List UsageStat) :
    (sortedStats dateTime stats).Perm (groupedByDate stats) :=
  List.perm_insertionSort _ _

/-! ## Per-date and per-model lookup totals -/

/-- The (totalTokens, totalRequests) pair of the bucket of a given date,
if that date has a bucket. -/
def dateTotals (stats : List UsageStat) (d : String) : Option (Int × Int) :=
  (findB (groupedByDate stats) d).map (fun b => (b.totalTokens, b.totalRequests))

/-- The (tokens, requests) pair of the `provider-model_name` keyed entry of
a date's bucket, if both the bucket and the entry exist. -/
def modelTotals (stats : List UsageStat) (d k : String) : Option (Int × Int) :=
  (findB (groupedByDate stats) d).bind
    (fun b => (findM b.models k).map (fun p => (p.2.tokens, p.2.requests)))

theorem dateTotals_eq (stats : List UsageStat) (d : String) :
    dateTotals stats d =
      if stats.filter (fun s => s.date = d) = [] then none
      else some (((stats.filter (fun s => s.date = d)).map UsageStat.tokens_used).sum,
                 ((stats.filter (fun s => s.date = d)).map UsageStat.request_count).sum) := by
  cases hf : stats.filter (fun s => s.date = d) with
  | nil => simp [dateTotals, findB_grouped_none stats d hf]
  | cons s0 rest =>
      rw [dateTotals, findB_grouped_cons stats d s0 rest hf]
      simp [foldl_addStatToBucket_totalTokens, foldl_addStatToBucket_totalRequests,
        addStatToBucket, emptyBucket, add_assoc]

theorem modelTotals_eq (stats : List UsageStat) (d k : String) :
    modelTotals stats d k =
      if (stats.filter (fun s => s.date = d)).filter (fun s => modelKey s = k) = [] then none
      else some
        ((((stats.filter (fun s => s.date = d)).filter
            (fun s => modelKey s = k)).map UsageStat.tokens_used).sum,
         (((stats.filter (fun s => s.date = d)).filter
            (fun s => modelKey s = k)).map UsageStat.request_count).sum) := by
  cases hf : stats.filter (fun s => s.date = d) with
  | nil => simp [modelTotals, findB_grouped_none stats d hf]
  | cons s0 rest =>
      rw [modelTotals, findB_grouped_cons stats d s0 rest hf]
      have hmodels : (rest.foldl addStatToBucket (addStatToBucket (emptyBucket d) s0)).models
          = (s0 :: rest).foldl updateModels [] := by
        rw [foldl_addStatToBucket_models]
        rfl
      simp only [Option.bind, hmodels]
      cases hg : (s0 :: rest).filter (fun s => modelKey s = k) with
      | nil =>
          rw [findM_foldl_none_nil (s0 :: rest) [] k rfl hg]
          simp
      | cons t0 trest =>
          rw [findM_foldl_none_cons (s0 :: rest) [] k t0 trest rfl hg]
          simp [foldl_addStatToEntry_tokens, foldl_addStatToEntry_requests,
            addStatToEntry, emptyEntry, add_assoc]

/-! ## Claims about the usage aggregator -/

/-- Claim C1: for every flat list of usage rows, the usage aggregator produces
one bucket per distinct date (bucket dates are pairwise distinct, every
bucket's date comes from some row, every row's date has a bucket); within
each date bucket there is one entry per distinct provider+model key, and
each row's `tokens_used` and `request_count` are accumulated both into its
date bucket's `totalTokens` / `totalRequests` and into its provider+model
entry's `tokens` / `requests`; and the buckets are output sorted in
descending date order. -/
theorem usage_aggregator_correct (dateTime : String → Int) (stats : List UsageStat) :
    (((sortedStats dateTime stats).map DateBucket.date).Nodup
      ∧ (∀ b ∈ sortedStats dateTime stats, ∃ s ∈ stats, s.date = b.date)
      ∧ (∀ s ∈ stats, ∃ b ∈ sortedStats dateTime stats, b.date = s.date))
    ∧ (∀ b ∈ sortedStats dateTime stats,
        (b.models.map Prod.fst).Nodup
        ∧ (∀ s ∈ stats, s.date = b.date → ∃ p ∈ b.models, p.1 = modelKey s)
        ∧ b.totalTokens = ((stats.filter fun s => s.date = b.date).map UsageStat.tokens_used).sum
        ∧ b.totalRequests
            = ((stats.filter fun s => s.date = b.date).map UsageStat.request_count).sum
        ∧ (∀ p ∈ b.models,
            p.2.tokens = (((stats.filter fun s => s.date = b.date).filter
                fun s => modelKey s = p.1).map UsageStat.tokens_used).sum
            ∧ p.2.requests = (((stats.filter fun s => s.date = b.date).filter
                fun s => modelKey s = p.1).map UsageStat.request_count).sum))
    ∧ List.Sorted (byDateDesc dateTime) (sortedStats dateTime stats) := by
  have hperm := perm_sortedStats dateTime stats
  refine ⟨⟨?_, ?_, ?_⟩, ?_, ?_⟩
  · exact ((hperm.map DateBucket.date).nodup_iff).mpr (nodup_dates_grouped stats)
  · intro b hb
    exact mem_grouped_date_from_stats stats b (hperm.mem_iff.1 hb)
  · intro s hs
    obtain ⟨b, hbmem, hbd⟩ := mem_grouped_of_mem_stats stats s hs
    exact ⟨b, hperm.mem_iff.2 hbmem, hbd⟩
  · intro b hb
    have hbg : b ∈ groupedByDate stats := hperm.mem_iff.1 hb
    obtain ⟨ht, hr, hm⟩ := grouped_bucket_props stats b hbg
    refine ⟨?_, ?_, ht, hr, ?_⟩
    · rw [hm]
      exact nodup_keys_foldl_updateModels _ [] (by simp)
    · intro s hs hsd
      rw [hm]
      exact modelKey_mem_fold _ s (List.mem_filter.2 ⟨hs, by simp [hsd]⟩)
    · intro p hp
      rw [hm] at hp
      exact models_entry_props _ p hp
  · haveI : IsTotal DateBucket (byDateDesc dateTime) :=
      ⟨fun a b => Int.le_total (dateTime b.date) (dateTime a.date)⟩
    haveI : IsTrans DateBucket (byDateDesc dateTime) :=
      ⟨fun _ _ _ h1 h2 => le_trans h2 h1⟩
    exact List.sorted_insertionSort _ _

/-- Claim C2: the usage aggregation is invariant under reordering of the input
rows: for every permutation of the row list, the per-date
(totalTokens, totalRequests) and the per-date, per-provider+model
(tokens, requests) lookups agree. -/
theorem usage_aggregation_perm_invariant (stats stats' : List UsageStat)
    (hp : stats.Perm stats') (d k : String) :
    dateTotals stats d = dateTotals stats' d
    ∧ modelTotals stats d k = modelTotals stats' d k := by
  have hfd : (stats.filter (fun s => s.date = d)).Perm
      (stats'.filter (fun s => s.date = d)) := hp.filter _
  have hfk : ((stats.filter (fun s => s.date = d)).filter (fun s => modelKey s = k)).Perm
      ((stats'.filter (fun s => s.date = d)).filter (fun s => modelKey s = k)) :=
    hfd.filter _
  constructor
  · rw [dateTotals_eq, dateTotals_eq]
    by_cases h : stats.filter (fun s => s.date = d) = []
    · have h' : stats'.filter (fun s => s.date = d) = [] := by
        rw [h] at hfd
        exact hfd.symm.eq_nil
      simp [h, h']
    · have h' : ¬ stats'.filter (fun s => s.date = d) = [] := by
        intro hc
        rw [hc] at hfd
        exact h hfd.eq_nil
      rw [if_neg h, if_neg h',
        (hfd.map UsageStat.tokens_used).sum_eq, (hfd.map UsageStat.request_count).sum_eq]
  · rw [modelTotals_eq, modelTotals_eq]
    by_cases h : (stats.filter (fun s => s.date = d)).filter (fun s => modelKey s = k) = []
    · have h' : (stats'.filter (fun s => s.date = d)).filter (fun s => modelKey s = k) = [] := by
        rw [h] at hfk
        exact hfk.symm.eq_nil
      simp [h, h']
    · have h' : ¬ (stats'.filter (fun s => s.date = d)).filter (fun s => modelKey s = k) = [] := by
        intro hc
        rw [hc] at hfk
        exact h hfk.eq_nil
      rw [if_neg h, if_neg h',
        (hfk.map UsageStat.tokens_used).sum_eq, (hfk.map UsageStat.request_count).sum_eq]

/-- Witness for claim **C2** at a concrete two-row list and its transposition. -/
theorem usage_aggregation_perm_invariant_witness :
    ([(⟨"2024-01-01", 3, 1, "gpt-4", "openai"⟩ : UsageStat),
      ⟨"2024-01-01", 4, 2, "claude", "anthropic"⟩].Perm
     [(⟨"2024-01-01", 4, 2, "claude", "anthropic"⟩ : UsageStat),
      ⟨"2024-01-01", 3, 1, "gpt-4", "openai"⟩])
    ∧ (dateTotals [⟨"2024-01-01", 3, 1, "gpt-4", "openai"⟩,
          ⟨"2024-01-01", 4, 2, "claude", "anthropic"⟩] "2024-01-01"
        = dateTotals [⟨"2024-01-01", 4, 2, "claude", "anthropic"⟩,
            ⟨"2024-01-01", 3, 1, "gpt-4", "openai"⟩] "2024-01-01"
       ∧ modelTotals [⟨"2024-01-01", 3, 1, "gpt-4", "openai"⟩,
            ⟨"2024-01-01", 4, 2, "claude", "anthropic"⟩] "2024-01-01" "openai-gpt-4"
        = modelTotals [⟨"2024-01-01", 4, 2, "claude", "anthropic"⟩,
            ⟨"2024-01-01", 3, 1, "gpt-4", "openai"⟩] "2024-01-01" "openai-gpt-4") :=
  ⟨List.Perm.swap _ _ _,
   usage_aggregation_perm_invariant _ _ (List.Perm.swap _ _ _) _ _⟩

/-- Claim C3: for an empty list of usage rows the aggregator yields an empty
sequence of date buckets and `UsageStatistics` renders its "no data"
placeholder. -/
theorem usage_aggregator_empty (dateTime : String → Int) :
    sortedStats dateTime [] = []
    ∧ usageStatisticsView dateTime [] = UsageView.noData := by
  constructor <;> rfl

/-- Claim C9: each date bucket's `totalTokens` / `totalRequests` equal the sum
of its per-model entries' `tokens` / `requests`, and the displayed grand
totals equal the sums of `tokens_used` and `request_count` over all
input rows. -/
theorem usage_totals_consistent (dateTime : String → Int) (stats : List UsageStat) :
    (∀ b ∈ sortedStats dateTime stats,
        b.totalTokens = (b.models.map (fun p => p.2.tokens)).sum
        ∧ b.totalRequests = (b.models.map (fun p => p.2.requests)).sum)
    ∧ grandTotalTokens dateTime stats = (stats.map UsageStat.tokens_used).sum
    ∧ grandTotalRequests dateTime stats = (stats.map UsageStat.request_count).sum := by
  have hperm := perm_sortedStats dateTime stats
  refine ⟨?_, ?_, ?_⟩
  · intro b hb
    have hbg : b ∈ groupedByDate stats := hperm.mem_iff.1 hb
    obtain ⟨ht, hr, hm⟩ := grouped_bucket_props stats b hbg
    constructor
    · rw [ht, hm, sum_tokens_foldl_updateModels]
      simp
    · rw [hr, hm, sum_requests_foldl_updateModels]
      simp
  · rw [grandTotalTokens, (hperm.map DateBucket.totalTokens).sum_eq, sum_totalTokens_grouped]
  · rw [grandTotalRequests, (hperm.map DateBucket.totalRequests).sum_eq,
      sum_totalRequests_grouped]

/-- A concrete sort key for the closed witnesses, standing in for
`new Date(s).getTime()` on the two dates used there. -/
def dateTimeSample (s : String) : Int :=
  if s = "2024-01-02" then 2 else 1

/-- A concrete two-row usage list for the closed witnesses. -/
def statsSample : List UsageStat :=
  [⟨"2024-01-01", 3, 1, "gpt-4", "openai"⟩,
   ⟨"2024-01-02", 5, 2, "claude", "anthropic"⟩]

/-- The date bucket that the aggregator produces for the second row of
`statsSample`. -/
def sampleBucket : DateBucket :=
  ⟨"2024-01-02", 5, 2, [("anthropic-claude", ⟨"claude", "anthropic", 5, 2⟩)]⟩

/-- Witness for C1 at the concrete list `statsSample`. -/
theorem usage_aggregator_correct_witness :
    sampleBucket ∈ sortedStats dateTimeSample statsSample
    ∧ sampleBucket.totalTokens
        = ((statsSample.filter fun s => s.date = sampleBucket.date).map
            UsageStat.tokens_used).sum
    ∧ (sampleBucket.models.map Prod.fst).Nodup := by
  have h := usage_aggregator_correct dateTimeSample statsSample
  have hb : sampleBucket ∈ sortedStats dateTimeSample statsSample := by decide
  exact ⟨hb, (h.2.1 sampleBucket hb).2.2.1, (h.2.1 sampleBucket hb).1⟩

/-- Witness for C9 at the concrete list `statsSample`. -/
theorem usage_totals_consistent_witness :
    sampleBucket.totalTokens = (sampleBucket.models.map (fun p => p.2.tokens)).sum
    ∧ grandTotalTokens dateTimeSample statsSample = 8 := by
  have h := usage_totals_consistent dateTimeSample statsSample
  have hb : sampleBucket ∈ sortedStats dateTimeSample statsSample := by decide
  exact ⟨(h.1 sampleBucket hb).1, h.2.1.trans (by decide)⟩

/-! ## The `DbAssistant` component state and its load functions

Each `load*` function of the component performs exactly one `fetch` and
then updates the component state from the outcome.  The embedding passes
the outcome of the network call in as a `FetchResult` value, records each
issued request in `fetchCalls`, each `console.error` in `logs` and each
`toast` in `toasts` (by its title). -/

/-- A message row (the `Message` type of the source). -/
inductive Role where
  | user
  | assistant
  | system
deriving DecidableEq

structure Message where
  id : Int
  conversation_id : Int
  role : Role
  content : String
  tokens_used : Option Int
  created_at : String
deriving DecidableEq

/-- A conversation row (the `Conversation` type of the source). -/
structure Conversation where
  id : Int
  user_id : Int
  title : String
  model_id : Option Int
  system_prompt : Option String
  is_pinned : Bool
  created_at : String
  updated_at : String
deriving DecidableEq

/-- A model row (the `AiModel` type of the source). -/
structure AiModel where
  id : Int
  name : String
  provider : String
  model_id : String
  description : Option String
  is_active : Bool
  created_at : String
  updated_at : String
deriving DecidableEq

/-- The per-user preferences record (the `UserPreference` type of the
source; the `temperature` slider value is embedded as a rational). -/
structure UserPreference where
  user_id : Int
  default_model_id : Option Int
  default_system_prompt : Option String
  temperature : Rat
  max_tokens : Int
  theme : String
  language : String
  created_at : String
  updated_at : String
deriving DecidableEq

/-- Outcome of one `fetch` call: either the decoded payload or the thrown
error message. -/
inductive FetchResult (α : Type) where
  | ok (data : α)
  | err (msg : String)
deriving DecidableEq

/-- The local state of the `DbAssistant` component, together with the
observable effects it emits (toasts, console logs, issued fetches). -/
structure AssistantState where
  conversations : List Conversation
  currentConversation : Option Conversation
  messages : List Message
  models : List AiModel
  preferences : Option UserPreference
  usageStats : List UsageStat
  isLoadingConversations : Bool
  isLoadingMessages : Bool
  isLoadingModels : Bool
  isLoadingPreferences : Bool
  isLoadingUsageStats : Bool
  toasts : List String
  logs : List String
  fetchCalls : List String
deriving DecidableEq

/-- The component's initial state (the `useState` initialisers of
`DbAssistant`). -/
def initialAssistantState : AssistantState :=
  { conversations := []
    currentConversation := none
    messages := []
    models := []
    preferences := none
    usageStats := []
    isLoadingConversations := true
    isLoadingMessages := false
    isLoadingModels := true
    isLoadingPreferences := true
    isLoadingUsageStats := false
    toasts := []
    logs := []
    fetchCalls := [] }

/-- The function `loadMessages(conversationId)`: one fetch of
`/api/ai-assistant/conversations/id`; on success the displayed messages
are replaced by the payload, on failure the error is logged and a toast
is shown; `isLoadingMessages` is reset in the `finally` block. -/
def loadMessages (st : AssistantState) (conversationId : Int)
    (r : FetchResult (List Message)) : AssistantState :=
  let st0 := { st with isLoadingMessages := true,
                       fetchCalls := st.fetchCalls
                         ++ ["/api/ai-assistant/conversations/" ++ toString conversationId] }
  let st1 := match r with
    | .ok msgs => { st0 with messages := msgs }
    | .err e => { st0 with logs := st0.logs ++ ["加载对话消息失败: " ++ e],
                           toasts := st0.toasts ++ ["加载对话消息失败"] }
  { st1 with isLoadingMessages := false }

/-- The function `loadConversations()`: one fetch of `/api/ai-assistant/conversations`;
on success the list is stored and, when it is non-empty and no
conversation is currently selected, the first conversation is selected
and its messages are loaded (their fetch outcome is `mr`); on failure the
error is logged and a toast is shown. -/
def loadConversations (st : AssistantState) (r : FetchResult (List Conversation))
    (mr : FetchResult (List Message)) : AssistantState :=
  let st0 := { st with isLoadingConversations := true,
                       fetchCalls := st.fetchCalls ++ ["/api/ai-assistant/conversations"] }
  let st1 := match r with
    | .ok convs =>
        let stA := { st0 with conversations := convs }
        match convs, st.currentConversation with
        | c :: _, none =>
            loadMessages { stA with currentConversation := some c } c.id mr
        | _, _ => stA
    | .err e => { st0 with logs := st0.logs ++ ["加载对话列表失败: " ++ e],
                           toasts := st0.toasts ++ ["加载对话列表失败"] }
  { st1 with isLoadingConversations := false }

/-- The function `loadModels()`: one fetch of `/api/ai-assistant/models`. -/
def loadModels (st : AssistantState) (r : FetchResult (List AiModel)) : AssistantState :=
  let st0 := { st with isLoadingModels := true,
                       fetchCalls := st.fetchCalls ++ ["/api/ai-assistant/models"] }
  let st1 := match r with
    | .ok ms => { st0 with models := ms }
    | .err e => { st0 with logs := st0.logs ++ ["加载AI模型失败: " ++ e],
                           toasts := st0.toasts ++ ["加载AI模型失败"] }
  { st1 with isLoadingModels := false }

/-- The function `loadPreferences()`: one fetch of `/api/ai-assistant/preferences`; on
failure the error is only logged — the source deliberately shows no toast
("不显示错误提示，因为可能是首次使用"). -/
def loadPreferences (st : AssistantState) (r : FetchResult UserPreference) : AssistantState :=
  let st0 := { st with isLoadingPreferences := true,
                       fetchCalls := st.fetchCalls ++ ["/api/ai-assistant/preferences"] }
  let st1 := match r with
    | .ok p => { st0 with preferences := some p }
    | .err e => { st0 with logs := st0.logs ++ ["加载用户偏好设置失败: " ++ e] }
  { st1 with isLoadingPreferences := false }

/-- The function `loadUsageStats()`: one fetch of `/api/ai-assistant/usage`. -/
def loadUsageStats (st : AssistantState) (r : FetchResult (List UsageStat)) : AssistantState :=
  let st0 := { st with isLoadingUsageStats := true,
                       fetchCalls := st.fetchCalls ++ ["/api/ai-assistant/usage"] }
  let st1 := match r with
    | .ok us => { st0 with usageStats := us }
    | .err e => { st0 with logs := st0.logs ++ ["加载使用统计失败: " ++ e],
                           toasts := st0.toasts ++ ["加载使用统计失败"] }
  { st1 with isLoadingUsageStats := false }

/-! ## Claims about the load functions -/

/-- Claim C4 counterexample: a failed preferences fetch is caught and logged
but produces no toast, refuting "every fetch failure is surfaced as a
user-facing transient notification" at this concrete input. -/
theorem loadPreferences_failure_no_toast :
    (loadPreferences initialAssistantState (FetchResult.err "network error")).toasts = []
    ∧ (loadPreferences initialAssistantState (FetchResult.err "network error")).logs
        = ["加载用户偏好设置失败: network error"] :=
  ⟨rfl, rfl⟩

/-- Claim C4 (amended): every failed fetch is caught at the call site and
logged, the previously held data state (conversations, selection,
messages, models, preferences, usage stats) is left unchanged, and
exactly one request is issued (no retry); every load except
`loadPreferences` additionally surfaces a toast, while a failed
`loadPreferences` only logs. -/
theorem load_failure_behavior (st : AssistantState) (e : String)
    (conversationId : Int) (mr : FetchResult (List Message)) :
    (let st' := loadConversations st (FetchResult.err e) mr
     st'.conversations = st.conversations
       ∧ st'.currentConversation = st.currentConversation
       ∧ st'.messages = st.messages ∧ st'.models = st.models
       ∧ st'.preferences = st.preferences ∧ st'.usageStats = st.usageStats
       ∧ st'.logs = st.logs ++ ["加载对话列表失败: " ++ e]
       ∧ st'.toasts = st.toasts ++ ["加载对话列表失败"]
       ∧ st'.fetchCalls = st.fetchCalls ++ ["/api/ai-assistant/conversations"])
    ∧ (let st' := loadMessages st conversationId (FetchResult.err e)
       st'.conversations = st.conversations
         ∧ st'.currentConversation = st.currentConversation
         ∧ st'.messages = st.messages ∧ st'.models = st.models
         ∧ st'.preferences = st.preferences ∧ st'.usageStats = st.usageStats
         ∧ st'.logs = st.logs ++ ["加载对话消息失败: " ++ e]
         ∧ st'.toasts = st.toasts ++ ["加载对话消息失败"]
         ∧ st'.fetchCalls = st.fetchCalls
             ++ ["/api/ai-assistant/conversations/" ++ toString conversationId])
    ∧ (let st' := loadModels st (FetchResult.err e)
       st'.conversations = st.conversations
         ∧ st'.currentConversation = st.currentConversation
         ∧ st'.messages = st.messages ∧ st'.models = st.models
         ∧ st'.preferences = st.preferences ∧ st'.usageStats = st.usageStats
         ∧ st'.logs = st.logs ++ ["加载AI模型失败: " ++ e]
         ∧ st'.toasts = st.toasts ++ ["加载AI模型失败"]
         ∧ st'.fetchCalls = st.fetchCalls ++ ["/api/ai-assistant/models"])
    ∧ (let st' := loadPreferences st (FetchResult.err e)
       st'.conversations = st.conversations
         ∧ st'.currentConversation = st.currentConversation
         ∧ st'.messages = st.messages ∧ st'.models = st.models
         ∧ st'.preferences = st.preferences ∧ st'.usageStats = st.usageStats
         ∧ st'.logs = st.logs ++ ["加载用户偏好设置失败: " ++ e]
         ∧ st'.toasts = st.toasts
         ∧ st'.fetchCalls = st.fetchCalls ++ ["/api/ai-assistant/preferences"])
    ∧ (let st' := loadUsageStats st (FetchResult.err e)
       st'.conversations = st.conversations
         ∧ st'.currentConversation = st.currentConversation
         ∧ st'.messages = st.messages ∧ st'.models = st.models
         ∧ st'.preferences = st.preferences ∧ st'.usageStats = st.usageStats
         ∧ st'.logs = st.logs ++ ["加载使用统计失败: " ++ e]
         ∧ st'.toasts = st.toasts ++ ["加载使用统计失败"]
         ∧ st'.fetchCalls = st.fetchCalls ++ ["/api/ai-assistant/usage"]) := by
  refine ⟨?_, ?_, ?_, ?_, ?_⟩ <;>
    exact ⟨rfl, rfl, rfl, rfl, rfl, rfl, rfl, rfl, rfl⟩

/-- Modelled from the spec: the `useEffect` mount hook of `DbAssistant` is
beyond the provided source excerpt (the file is truncated after
`createConversation`); per the spec, "on mount, fetch the conversation
list" — mounting runs `loadConversations`.  The selection logic itself is
the `loadConversations` of the source. -/
def mountAssistant (st : AssistantState) (r : FetchResult (List Conversation))
    (mr : FetchResult (List Message)) : AssistantState :=
  loadConversations st r mr

/-- Claim C5: on mount the assistant fetches the conversation list; if it is
non-empty and no conversation is selected, the first conversation becomes
current and its messages are fetched (stored on success); if the list is
empty or a conversation is already selected, selection and messages are
unchanged. -/
theorem mount_selects_first_conversation (st : AssistantState)
    (convs : List Conversation) (mr : FetchResult (List Message)) :
    (mountAssistant st (FetchResult.ok convs) mr).conversations = convs
    ∧ (mountAssistant st (FetchResult.ok convs) mr).currentConversation
        = (match st.currentConversation with
           | some c => some c
           | none => convs.head?)
    ∧ (∀ c rest, st.currentConversation = none → convs = c :: rest →
        (mountAssistant st (FetchResult.ok convs) mr).fetchCalls
          = st.fetchCalls ++ ["/api/ai-assistant/conversations",
              "/api/ai-assistant/conversations/" ++ toString c.id]
        ∧ ∀ msgs, mr = FetchResult.ok msgs →
            (mountAssistant st (FetchResult.ok convs) mr).messages = msgs)
    ∧ ((st.currentConversation ≠ none ∨ convs = []) →
        (mountAssistant st (FetchResult.ok convs) mr).currentConversation
          = st.currentConversation
        ∧ (mountAssistant st (FetchResult.ok convs) mr).messages = st.messages) := by
  cases hcur : st.currentConversation with
  | some c0 =>
      refine ⟨?_, ?_, ?_, ?_⟩
      · cases convs <;> simp [mountAssistant, loadConversations, hcur]
      · cases convs <;> simp [mountAssistant, loadConversations, hcur]
      · intro c rest hnone _
        exact absurd hnone (by simp)
      · intro _
        cases convs <;>
          exact ⟨by simp [mountAssistant, loadConversations, hcur],
                 by simp [mountAssistant, loadConversations, hcur]⟩
  | none =>
      cases convs with
      | nil =>
          refine ⟨?_, ?_, ?_, ?_⟩
          · simp [mountAssistant, loadConversations, hcur]
          · simp [mountAssistant, loadConversations, hcur]
          · intro c rest _ hc
            exact absurd hc (by simp)
          · intro _
            exact ⟨by simp [mountAssistant, loadConversations, hcur],
                   by simp [mountAssistant, loadConversations, hcur]⟩
      | cons c rest =>
          cases mr with
          | ok msgs =>
              refine ⟨?_, ?_, ?_, ?_⟩
              · simp [mountAssistant, loadConversations, loadMessages, hcur]
              · simp [mountAssistant, loadConversations, loadMessages, hcur]
              · intro c' rest' _ hc
                injection hc with h1 h2
                subst h1
                subst h2
                refine ⟨?_, ?_⟩
                · simp [mountAssistant, loadConversations, loadMessages, hcur]
                · intro msgs' hok
                  injection hok with h3
                  subst h3
                  simp [mountAssistant, loadConversations, loadMessages, hcur]
              · intro h
                rcases h with h | h
                · exact absurd rfl h
                · exact absurd h (by simp)
          | err e =>
              refine ⟨?_, ?_, ?_, ?_⟩
              · simp [mountAssistant, loadConversations, loadMessages, hcur]
              · simp [mountAssistant, loadConversations, loadMessages, hcur]
              · intro c' rest' _ hc
                injection hc with h1 h2
                subst h1
                subst h2
                refine ⟨?_, ?_⟩
                · simp [mountAssistant, loadConversations, loadMessages, hcur]
                · intro msgs' hok
                  exact absurd hok (by simp)
              · intro h
                rcases h with h | h
                · exact absurd rfl h
                · exact absurd h (by simp)

/-- A concrete conversation row used by the closed witnesses. -/
def sampleConversation : Conversation :=
  ⟨1, 1, "新对话", none, none, false, "2024-01-01", "2024-01-01"⟩

/-- A concrete message row used by the closed witnesses. -/
def sampleMessage : Message :=
  ⟨1, 1, Role.user, "你好", none, "2024-01-01"⟩

/-- Witness for claim **C5** at a concrete state with no selection and a
one-conversation payload. -/
theorem mount_selects_first_conversation_witness :
    (mountAssistant initialAssistantState (FetchResult.ok [sampleConversation])
        (FetchResult.ok [sampleMessage])).currentConversation = some sampleConversation
    ∧ (mountAssistant initialAssistantState (FetchResult.ok [sampleConversation])
        (FetchResult.ok [sampleMessage])).messages = [sampleMessage] := by
  have h := mount_selects_first_conversation initialAssistantState
    [sampleConversation] (FetchResult.ok [sampleMessage])
  obtain ⟨_, h2, h3, _⟩ := h
  obtain ⟨_, hm⟩ := h3 _ [] rfl rfl
  exact ⟨h2.trans rfl, hm _ rfl⟩

/-- Claim C6: on switching to a conversation, the component fetches that
conversation's messages and, on success, the displayed message set is
wholly replaced by the fetched payload. -/
theorem loadMessages_replaces (st : AssistantState) (conversationId : Int)
    (msgs : List Message) :
    (loadMessages st conversationId (FetchResult.ok msgs)).messages = msgs
    ∧ (loadMessages st conversationId (FetchResult.ok msgs)).fetchCalls
        = st.fetchCalls ++ ["/api/ai-assistant/conversations/" ++ toString conversationId] :=
  ⟨rfl, rfl⟩

/-! ## Renaming a conversation (`ConversationListItem.handleRename`) -/

/-- JavaScript's `String.prototype.trim`: strip leading and trailing
whitespace.  Embedded structurally over the character list so that it
evaluates inside the kernel. -/
def trimString (s : String) : String :=
  ⟨((s.data.dropWhile Char.isWhitespace).reverse.dropWhile Char.isWhitespace).reverse⟩

/-- The local state of one `ConversationListItem`: the edited title, the
editing flag, and the titles passed to the `onRename` callback. -/
structure RenameState where
  title : String
  isEditing : Bool
  renameCalls : List String
deriving DecidableEq

/-- The function `handleRename` of `ConversationListItem`: `onRename(title)` is invoked
and editing ends only when the trimmed title is non-empty (JavaScript
truthiness of `title.trim()`); otherwise nothing happens. -/
def handleRename (st : RenameState) : RenameState :=
  if trimString st.title ≠ "" then
    { st with renameCalls := st.renameCalls ++ [st.title], isEditing := false }
  else st

/-- Claim C7: submitting a rename whose title is empty or whitespace-only is
a no-op: the `onRename` callback is not invoked and nothing changes. -/
theorem handleRename_blank_noop (st : RenameState) (h : trimString st.title = "") :
    handleRename st = st ∧ (handleRename st).renameCalls = st.renameCalls := by
  constructor <;> simp [handleRename, h]

/-- Witness for claim **C7** at a whitespace-only title. -/
theorem handleRename_blank_noop_witness :
    trimString (⟨"   ", true, []⟩ : RenameState).title = ""
    ∧ handleRename ⟨"   ", true, []⟩ = ⟨"   ", true, []⟩
    ∧ (handleRename ⟨"   ", true, []⟩).renameCalls = [] := by
  have h := handleRename_blank_noop ⟨"   ", true, []⟩ (by decide)
  exact ⟨by decide, h.1, h.2⟩

/-! ## Deleting a conversation -/

/-- Modelled from the spec: the `deleteConversation` handler of
`DbAssistant` lies beyond the provided source excerpt (the file is cut
inside `createConversation`); per the spec, "Deleting a conversation
removes exactly one item from the list and, if it was selected, clears
the message view." -/
def deleteConversation (st : AssistantState) (conversationId : Int) : AssistantState :=
  let wasCurrent :=
    match st.currentConversation with
    | some c => decide (c.id = conversationId)
    | none => false
  { st with
      conversations := st.conversations.filter (fun c => decide (c.id ≠ conversationId)),
      currentConversation := if wasCurrent then none else st.currentConversation,
      messages := if wasCurrent then [] else st.messages }

theorem filter_ne_id_length (l : List Conversation) (i : Int)
    (hnd : (l.map Conversation.id).Nodup) (hmem : i ∈ l.map Conversation.id) :
    (l.filter (fun c => decide (c.id ≠ i))).length + 1 = l.length := by
  induction l with
  | nil => simp at hmem
  | cons c rest ih =>
      rw [List.map_cons, List.nodup_cons] at hnd
      rcases List.mem_cons.1 hmem with heq | hmem'
      · subst heq
        have hkeep : rest.filter (fun x => decide (x.id ≠ c.id)) = rest := by
          apply List.filter_eq_self.mpr
          intro a ha
          have hmap : a.id ∈ rest.map Conversation.id := List.mem_map_of_mem _ ha
          have hane : a.id ≠ c.id := fun hc => hnd.1 (hc ▸ hmap)
          simpa using hane
        have hdrop : List.filter (fun x => decide (x.id ≠ c.id)) (c :: rest) = rest := by
          rw [List.filter_cons, hkeep]
          simp
        rw [hdrop, List.length_cons]
      · have hne : c.id ≠ i := fun hc => hnd.1 (hc ▸ hmem')
        simp only [List.filter_cons, hne, decide_eq_true_eq, if_true, List.length_cons,
          decide_not]
        rw [← ih hnd.2 hmem']
        simp [hne]

/-- Claim C8: deleting a conversation removes exactly one item (the deleted
one) from the conversation list, leaves every other conversation in
place, and clears the message view (and the selection) exactly when the
deleted conversation was the selected one. -/
theorem deleteConversation_spec (st : AssistantState) (conversationId : Int)
    (hnd : (st.conversations.map Conversation.id).Nodup)
    (hmem : conversationId ∈ st.conversations.map Conversation.id) :
    (deleteConversation st conversationId).conversations.length + 1
        = st.conversations.length
    ∧ (∀ c ∈ st.conversations, c.id ≠ conversationId →
        c ∈ (deleteConversation st conversationId).conversations)
    ∧ (∀ c ∈ (deleteConversation st conversationId).conversations,
        c ∈ st.conversations ∧ c.id ≠ conversationId)
    ∧ (∀ c, st.currentConversation = some c → c.id = conversationId →
        (deleteConversation st conversationId).messages = []
        ∧ (deleteConversation st conversationId).currentConversation = none)
    ∧ (∀ c, st.currentConversation = some c → c.id ≠ conversationId →
        (deleteConversation st conversationId).messages = st.messages) := by
  refine ⟨?_, ?_, ?_, ?_, ?_⟩
  · simpa [deleteConversation] using
      filter_ne_id_length st.conversations conversationId hnd hmem
  · intro c hc hne
    simp only [deleteConversation]
    exact List.mem_filter.2 ⟨hc, by simpa using hne⟩
  · intro c hc
    simp only [deleteConversation] at hc
    have := List.mem_filter.1 hc
    exact ⟨this.1, by simpa using this.2⟩
  · intro c hcur heq
    constructor <;> simp [deleteConversation, hcur, heq]
  · intro c hcur hne
    simp [deleteConversation, hcur, hne]

/-- A second concrete conversation row used by the **C8** witness. -/
def sampleConversation2 : Conversation :=
  ⟨2, 1, "项目讨论", none, none, false, "2024-01-02", "2024-01-02"⟩

/-- A concrete assistant state with two conversations, the first one
selected, used by the **C8** witness. -/
def sampleDeleteState : AssistantState :=
  { initialAssistantState with
      conversations := [sampleConversation, sampleConversation2],
      currentConversation := some sampleConversation,
      messages := [sampleMessage] }

/-- Witness for claim **C8**: deleting the selected conversation of a two-item
list drops one item, keeps the other, and clears the message view. -/
theorem deleteConversation_spec_witness :
    (deleteConversation sampleDeleteState 1).conversations.length + 1
        = sampleDeleteState.conversations.length
    ∧ sampleConversation2 ∈ (deleteConversation sampleDeleteState 1).conversations
    ∧ (deleteConversation sampleDeleteState 1).messages = []
    ∧ (deleteConversation sampleDeleteState 1).currentConversation = none := by
  have h := deleteConversation_spec sampleDeleteState 1 (by decide) (by decide)
  have hsel := h.2.2.2.1 sampleConversation (by decide) (by decide)
  exact ⟨h.1, h.2.1 sampleConversation2 (by decide) (by decide), hsel.1, hsel.2⟩

/-! ## Creating a conversation (`NewConversationDialog.handleCreate`) -/

/-- The local state of `NewConversationDialog`: the form fields, the
creating flag, whether the dialog is open, the (title, modelId,
systemPrompt) triples passed to `onCreateConversation`, and the toasts
shown. -/
structure NewConversationState where
  title : String
  modelId : Option Int
  systemPrompt : String
  isCreating : Bool
  dialogOpen : Bool
  createCalls : List (String × Option Int × Option String)
  toasts : List String
deriving DecidableEq

/-- The function `handleCreate` of `NewConversationDialog`: returns immediately when the
trimmed title is empty; otherwise invokes
`onCreateConversation(title, modelId, systemPrompt || undefined)` and, on
success, resets the form fields to their defaults and closes the dialog;
on failure it shows a toast; `isCreating` is reset in `finally`. -/
def handleCreate (st : NewConversationState) (r : FetchResult Unit) : NewConversationState :=
  if trimString st.title = "" then st
  else
    let st1 := { st with
      isCreating := false,
      createCalls := st.createCalls
        ++ [(st.title, st.modelId,
             if st.systemPrompt = "" then none else some st.systemPrompt)] }
    match r with
    | .ok _ => { st1 with title := "新对话", modelId := none, systemPrompt := "",
                          dialogOpen := false }
    | .err _ => { st1 with toasts := st1.toasts ++ ["创建对话失败"] }

/-- The `disabled` condition of the create button:
`!title.trim() || isCreating`. -/
def createButtonDisabled (st : NewConversationState) : Bool :=
  decide (trimString st.title = "") || st.isCreating

/-- Claim C10: a blank (empty or whitespace-only) title is rejected at the
dialog — `handleCreate` is a no-op and the create button is disabled, so
`onCreateConversation` is never invoked with a blank title; on successful
creation the form fields are reset to their defaults and the dialog is
closed. -/
theorem handleCreate_spec (st : NewConversationState) (r : FetchResult Unit) :
    (trimString st.title = "" →
        handleCreate st r = st ∧ createButtonDisabled st = true)
    ∧ ((handleCreate st r).createCalls ≠ st.createCalls → trimString st.title ≠ "")
    ∧ (trimString st.title ≠ "" → r = FetchResult.ok () →
        (handleCreate st r).title = "新对话"
        ∧ (handleCreate st r).modelId = none
        ∧ (handleCreate st r).systemPrompt = ""
        ∧ (handleCreate st r).dialogOpen = false
        ∧ (handleCreate st r).createCalls
            = st.createCalls ++ [(st.title, st.modelId,
                if st.systemPrompt = "" then none else some st.systemPrompt)]) := by
  refine ⟨?_, ?_, ?_⟩
  · intro h
    exact ⟨by simp [handleCreate, h], by simp [createButtonDisabled, h]⟩
  · intro hne h
    exact hne (by simp [handleCreate, h])
  · intro h hr
    subst hr
    refine ⟨?_, ?_, ?_, ?_, ?_⟩ <;> simp [handleCreate, h]

/-- Witness for claim **C10** at a blank-title state and at a non-blank-title
state with a successful creation. -/
theorem handleCreate_spec_witness :
    (trimString (⟨"  ", none, "", false, true, [], []⟩ : NewConversationState).title = ""
      ∧ handleCreate ⟨"  ", none, "", false, true, [], []⟩ (FetchResult.ok ())
          = ⟨"  ", none, "", false, true, [], []⟩
      ∧ createButtonDisabled ⟨"  ", none, "", false, true, [], []⟩ = true)
    ∧ (trimString (⟨"项目讨论", some 1, "", false, true, [], []⟩ :
          NewConversationState).title ≠ ""
      ∧ (handleCreate ⟨"项目讨论", some 1, "", false, true, [], []⟩
          (FetchResult.ok ())).title = "新对话"
      ∧ (handleCreate ⟨"项目讨论", some 1, "", false, true, [], []⟩
          (FetchResult.ok ())).dialogOpen = false) := by
  have h1 := handleCreate_spec ⟨"  ", none, "", false, true, [], []⟩ (FetchResult.ok ())
  have h2 := handleCreate_spec ⟨"项目讨论", some 1, "", false, true, [], []⟩
    (FetchResult.ok ())
  have hb := h1.1 (by decide)
  have hg := h2.2.2 (by decide) rfl
  exact ⟨⟨by decide, hb.1, hb.2⟩, ⟨by decide, hg.1, hg.2.2.2.1⟩⟩

end DbAssistant
